import Mathlib

/-!
Verification development for the storage dump decoder
(`crates/demo-esp32-s3/storage-dump.py`).

The Python program is embedded shallowly: the byte buffer is a `List Nat`
(each element a byte value), the mutable `Cursor` object becomes a record
that every primitive threads explicitly, and Python exceptions become an
explicit error type propagated through `Except`.  Python's slicing
semantics (silent truncation past the end of the buffer) is modelled
faithfully with `List.drop`/`List.take`.
-/

set_option maxRecDepth 8000

namespace StorageDump

/-- Runtime failures of the Python program.  Each constructor records which
Python exception the decoder raises at the corresponding place. -/
inductive Err where
  /-- Python `IndexError`: `self.b[self.c]` with the cursor at or past the end. -/
  | indexError
  /-- Python `struct.error`: `struct.unpack`/`unpack_from` given too few bytes. -/
  | structError
  /-- Python `Exception('too many items in prior')` from `Prior.__init__`. -/
  | tooManyItems
  /-- Python `Exception('bad header magic')` from `Header.__init__`. -/
  | badHeaderMagic
  /-- Python `Exception('bad segment header magic @offset')` from `Segment.read`. -/
  | badSegmentMagic (offset : Nat)
  /-- Python `AttributeError`: the call `c.get_string()` on line 177; class
  `Cursor` defines no `get_string` method. -/
  | attributeError
  /-- Python `TypeError`: `h.head[0]` when `h.head` is `None` (line 182/195). -/
  | typeError
  /-- Python `RecursionError`: the Python call stack is exhausted; modelled by the
  fuel parameter of the recursive walk reaching zero. -/
  | recursionError
deriving DecidableEq

/-- The mutable cursor of `class Cursor` (lines 33-37): the underlying
buffer `b`, the position `c`, and the word-alignment flag `rkyv`. -/
structure Cursor where
  b : List Nat
  c : Nat
  rkyv : Bool
deriving DecidableEq

/-- Python `Cursor.align` (lines 39-41). -/
def cursorAlign (m : Nat) (cur : Cursor) : Cursor :=
  if cur.c % m = 0 then cur else { cur with c := cur.c + (m - cur.c % m) }

/-- Python `Cursor.get_u8` (lines 43-46): indexing raises `IndexError` past the
end of the buffer, otherwise returns the byte and advances by one. -/
def get_u8 (cur : Cursor) : Except Err (Nat × Cursor) :=
  if h : cur.c < cur.b.length then
    .ok (cur.b.get ⟨cur.c, h⟩, { cur with c := cur.c + 1 })
  else
    .error .indexError

/-- Python `Cursor.get_bool` (lines 48-49). -/
def get_bool (cur : Cursor) : Except Err (Bool × Cursor) :=
  match get_u8 cur with
  | .error e => .error e
  | .ok (v, cur') => .ok (decide (v ≠ 0), cur')

/-- Python `Cursor.peek_bytes` (lines 85-86): a Python slice, which silently
truncates when fewer than `n` bytes remain. -/
def peek_bytes (n : Nat) (cur : Cursor) : List Nat :=
  (cur.b.drop cur.c).take n

/-- Python `Cursor.get_bytes` (lines 88-91): returns the (possibly truncated)
slice and advances the position by the full requested count `n`,
regardless of how many bytes were actually available.  It never fails. -/
def get_bytes (n : Nat) (cur : Cursor) : List Nat × Cursor :=
  (peek_bytes n cur, { cur with c := cur.c + n })

/-- The alignment performed by `get_u16`/`get_u32` when the cursor is in
rkyv (word-aligned) mode (lines 52-53 and 58-59). -/
def alignedFor (cur : Cursor) : Cursor :=
  if cur.rkyv then cursorAlign 4 cur else cur

/-- Python `Cursor.get_u16` (lines 51-55): `struct.unpack('<H', b)` raises
`struct.error` unless exactly two bytes were obtained. -/
def get_u16 (cur : Cursor) : Except Err (Nat × Cursor) :=
  match get_bytes 2 (alignedFor cur) with
  | ([b0, b1], cur2) => .ok (b0 + 256 * b1, cur2)
  | (_, _) => .error .structError

/-- Python `Cursor.get_u32` (lines 57-61): little-endian, word-aligned in rkyv
mode; `struct.unpack('<I', b)` raises unless exactly four bytes came. -/
def get_u32 (cur : Cursor) : Except Err (Nat × Cursor) :=
  match get_bytes 4 (alignedFor cur) with
  | ([b0, b1, b2, b3], cur2) => .ok (b0 + 256 * (b1 + 256 * (b2 + 256 * b3)), cur2)
  | (_, _) => .error .structError

/-- Python `Cursor.get_option` (lines 63-67). -/
def get_option {α : Type} (dec : Cursor → Except Err (α × Cursor)) (cur : Cursor) :
    Except Err (Option α × Cursor) :=
  match get_bool cur with
  | .error e => .error e
  | .ok (flag, cur') =>
    if flag then
      match dec cur' with
      | .error e => .error e
      | .ok (v, cur'') => .ok (some v, cur'')
    else
      .ok (none, cur')

/-- The `while b & 0x80 != 0` loop of `Cursor.get_leb` (lines 72-76),
collecting the list `vl` in read order.  Every iteration consumes a byte,
so with fuel `remaining bytes + 1` the fuel can never run out: `get_u8`
raises `IndexError` first. -/
def lebLoop : Nat → Cursor → Except Err (List Nat × Cursor)
  | 0, _ => .error .recursionError
  | fuel + 1, cur =>
    match get_u8 cur with
    | .error e => .error e
    | .ok (byte, cur') =>
      if byte &&& 0x80 ≠ 0 then
        match lebLoop fuel cur' with
        | .error e => .error e
        | .ok (vl, cur'') => .ok ((byte &&& 0x7F) :: vl, cur'')
      else
        .ok ([byte], cur')

/-- The reconstruction loop of `get_leb` (lines 77-79):
`for vv in reversed(vl): v = (v << 7) | vv`. -/
def lebFold (vl : List Nat) : Nat :=
  vl.foldr (fun vv v => (v <<< 7) ||| vv) 0

/-- Python `Cursor.get_leb` (lines 69-80). -/
def get_leb (cur : Cursor) : Except Err (Nat × Cursor) :=
  match lebLoop (cur.b.length - cur.c + 1) cur with
  | .error e => .error e
  | .ok (vl, cur') => .ok (lebFold vl, cur')

/-- The `for i in range(0, tag)` loops of `Prior.__init__` (lines 22-25)
and `Cursor.get_array` (lines 100-101): run the element decoder a fixed
number of times, collecting results in order. -/
def decodeLoop {α : Type} (dec : Cursor → Except Err (α × Cursor)) :
    Nat → Cursor → Except Err (List α × Cursor)
  | 0, cur => .ok ([], cur)
  | n + 1, cur =>
    match dec cur with
    | .error e => .error e
    | .ok (v, cur') =>
      match decodeLoop dec n cur' with
      | .error e => .error e
      | .ok (vs, cur'') => .ok (v :: vs, cur'')

/-- Python `Prior.__init__` / `Cursor.get_prior` (lines 15-25, 82-83): read a
varint count, fail with `too many items in prior` when it exceeds 2,
otherwise decode that many elements.  (The `print`/`peek_bytes` calls in
the Python have no effect on the cursor.) -/
def get_prior {α : Type} (dec : Cursor → Except Err (α × Cursor)) (cur : Cursor) :
    Except Err (List α × Cursor) :=
  match get_leb cur with
  | .error e => .error e
  | .ok (tag, cur') =>
    if 2 < tag then .error .tooManyItems else decodeLoop dec tag cur'

/-- Python `Cursor.get_byte_array` (lines 93-95): a varint length followed by a
raw (possibly truncated, never failing) byte read. -/
def get_byte_array (cur : Cursor) : Except Err (List Nat × Cursor) :=
  match get_leb cur with
  | .error e => .error e
  | .ok (l, cur') => .ok (get_bytes l cur')

/-- Python `Cursor.get_array` (lines 97-102). -/
def get_array {α : Type} (dec : Cursor → Except Err (α × Cursor)) (cur : Cursor) :
    Except Err (List α × Cursor) :=
  match get_leb cur with
  | .error e => .error e
  | .ok (l, cur') => decodeLoop dec l cur'

/-- The call `c.get_string()` on line 177.  Class `Cursor` defines no
`get_string` method, so at runtime this call raises `AttributeError`
whenever it is reached; the embedding makes it the always-failing decode
step. -/
def get_string (_cur : Cursor) : Except Err (Unit × Cursor) :=
  .error .attributeError

/-- Python `DATA_OFFSET` (line 4). -/
def DATA_OFFSET : Nat := 4096

/-- Python `STORAGE_HEADER_MAGIC` (line 5). -/
def STORAGE_HEADER_MAGIC : List Nat := [0x1C, 0x53, 0x4F, 0x00]

/-- Python `SEGMENT_HEADER_MAGIC` (line 6). -/
def SEGMENT_HEADER_MAGIC : List Nat := [0x1E, 0x53, 0x4F, 0x00]

/-- The fields stored by `Header.__init__` (lines 104-116). -/
structure Header where
  epoch : Nat
  graph_id : Option (List Nat)
  head : Option (Nat × Nat)
  stored_bytes : Nat
deriving DecidableEq

/-- The header fields decoded after the magic check, in source order
(lines 110-116), over a cursor in rkyv (word-aligned) mode. -/
def decodeHeaderFields (cur : Cursor) : Except Err Header :=
  match get_u32 cur with
  | .error e => .error e
  | .ok (epoch, c1) =>
    match get_option (fun c => .ok (get_bytes 32 c)) c1 with
    | .error e => .error e
    | .ok (graph_id, c2) =>
      let c3 := cursorAlign 4 c2
      match get_option (fun c =>
          match get_u32 c with
          | .error e => .error e
          | .ok (h1, c') =>
            match get_u32 c' with
            | .error e => .error e
            | .ok (h2, c'') => .ok ((h1, h2), c'')) c3 with
      | .error e => .error e
      | .ok (headv, c4) =>
        match get_u32 c4 with
        | .error e => .error e
        | .ok (stored, _c5) =>
          .ok { epoch := epoch, graph_id := graph_id, head := headv,
                stored_bytes := stored }

/-- Python `Header.__init__` (lines 104-116): magic check first, then the
fields; the cursor starts at position 0 in rkyv mode. -/
def decodeHeader (b : List Nat) : Except Err Header :=
  let bc := get_bytes 4 ⟨b, 0, true⟩
  if bc.1 = STORAGE_HEADER_MAGIC then decodeHeaderFields bc.2
  else .error .badHeaderMagic

/-- Python `decode_location` (lines 121-124). -/
def decode_location (c : Cursor) : Except Err ((Nat × Nat) × Cursor) :=
  match get_leb c with
  | .error e => .error e
  | .ok (l1, c1) =>
    match get_leb c1 with
    | .error e => .error e
    | .ok (l2, c2) => .ok ((l1, l2), c2)

/-- Python `decode_address` (lines 126-129). -/
def decode_address (c : Cursor) : Except Err ((List Nat × Nat) × Cursor) :=
  let ac := get_bytes 32 c
  match get_leb ac.2 with
  | .error e => .error e
  | .ok (l2, c2) => .ok ((ac.1, l2), c2)

/-- The fields stored by `CommandData.__init__` (lines 167-177). -/
structure CommandData where
  id : List Nat
  priority : Nat
  priority_value : Option Nat
  policy : Option (List Nat)
  data : List Nat
  updates : List (Unit × List (List Nat) × Option (List Nat))
deriving DecidableEq

/-- One element of the `updates` array (the lambda on line 177):
`(c.get_string(), c.get_array(byte_array), c.get_option(byte_array))`.
Since `get_string` always raises, this decoder always fails. -/
def decodeUpdate (c : Cursor) :
    Except Err ((Unit × List (List Nat) × Option (List Nat)) × Cursor) :=
  match get_string c with
  | .error e => .error e
  | .ok (name, c1) =>
    match get_array get_byte_array c1 with
    | .error e => .error e
    | .ok (vals, c2) =>
      match get_option get_byte_array c2 with
      | .error e => .error e
      | .ok (delta, c3) => .ok ((name, vals, delta), c3)

/-- The conditional `priority_value` read (lines 171-174): an extra
varint is read exactly when the previously decoded tag equals 1. -/
def priorityValueStep (tag : Nat) (cur : Cursor) :
    Except Err (Option Nat × Cursor) :=
  if tag = 1 then
    match get_leb cur with
    | .error e => .error e
    | .ok (v, cur') => .ok (some v, cur')
  else
    .ok (none, cur)

/-- Python `CommandData.__init__` (lines 167-177). -/
def decodeCommandData (cur : Cursor) : Except Err (CommandData × Cursor) :=
  let ic := get_bytes 32 cur
  match get_leb ic.2 with
  | .error e => .error e
  | .ok (priority, c2) =>
    match priorityValueStep priority c2 with
    | .error e => .error e
    | .ok (pv, c3) =>
      match get_option get_byte_array c3 with
      | .error e => .error e
      | .ok (policy, c4) =>
        match get_byte_array c4 with
        | .error e => .error e
        | .ok (dat, c5) =>
          match get_array decodeUpdate c5 with
          | .error e => .error e
          | .ok (updates, c6) =>
            .ok ({ id := ic.1, priority := priority, priority_value := pv,
                   policy := policy, data := dat, updates := updates }, c6)

/-- The classification on lines 157-162 (`if/elif/elif` with no `else`):
for a parent count other than 0, 1, 2 no `type` attribute is assigned,
modelled as `none`. -/
def segKind (n : Nat) : Option String :=
  if n = 0 then some "init"
  else if n = 1 then some "basic"
  else if n = 2 then some "merge"
  else none

/-- The attributes a decoded `Segment` object carries (lines 131-162;
`commands`, `max_cut` and `skip_list` are decoded into local variables
and discarded, but their decoding can still fail). -/
structure Segment where
  offset : Nat
  size : Nat
  data : List Nat
  prior : List (Nat × Nat)
  parents : List (List Nat × Nat)
  policy : List Nat
  facts : Nat
  type_ : Option String
deriving DecidableEq

/-- One `skip_list` element (the lambda on line 155). -/
def decodeSkipEntry (c : Cursor) : Except Err (((Nat × Nat) × Nat) × Cursor) :=
  match get_leb c with
  | .error e => .error e
  | .ok (a, c1) =>
    match get_leb c1 with
    | .error e => .error e
    | .ok (b2, c2) =>
      match get_leb c2 with
      | .error e => .error e
      | .ok (d, c3) => .ok (((a, b2), d), c3)

/-- Python `Segment.decode_data` (lines 146-162): an unaligned cursor over the
payload, reading `self_offset` (a local variable in the Python), `prior`,
`parents`, `policy` (32 raw bytes), `facts`, `commands`, `max_cut`,
`skip_list` in this order, then classifying from `len(parents)`. -/
def decodeData (offset size : Nat) (data : List Nat) : Except Err Segment :=
  match get_leb ⟨data, 0, false⟩ with
  | .error e => .error e
  | .ok (_selfOff, c1) =>
    match get_prior decode_location c1 with
    | .error e => .error e
    | .ok (prior, c2) =>
      match get_prior decode_address c2 with
      | .error e => .error e
      | .ok (parents, c3) =>
        let pc := get_bytes 32 c3
        match get_leb pc.2 with
        | .error e => .error e
        | .ok (facts, c5) =>
          match get_array decodeCommandData c5 with
          | .error e => .error e
          | .ok (_commands, c6) =>
            match get_leb c6 with
            | .error e => .error e
            | .ok (_maxCut, c7) =>
              match get_array decodeSkipEntry c7 with
              | .error e => .error e
              | .ok (_skipList, _c8) =>
                .ok { offset := offset, size := size, data := data,
                      prior := prior, parents := parents, policy := pc.1,
                      facts := facts, type_ := segKind parents.length }

/-- Python `struct.unpack_from('<I', b, pos)` (line 140): little-endian u32 at
an absolute position, raising `struct.error` when fewer than four bytes
remain there. -/
def unpackU32from (b : List Nat) (pos : Nat) : Except Err Nat :=
  match (b.drop pos).take 4 with
  | [b0, b1, b2, b3] => .ok (b0 + 256 * (b1 + 256 * (b2 + 256 * b3)))
  | _ => .error .structError

/-- Python `Segment.__init__`/`Segment.read` (lines 131-144): magic check at
`offset + DATA_OFFSET` (a Python slice compare, so a truncated slice just
mismatches), `size` via `unpack_from` right after, then `size` bytes of
payload (a slice, silently truncated if the buffer ends) handed to
`decode_data`. -/
def decodeSegment (b : List Nat) (offset : Nat) : Except Err Segment :=
  if (b.drop (offset + DATA_OFFSET)).take 4 = SEGMENT_HEADER_MAGIC then
    match unpackU32from b (offset + DATA_OFFSET + 4) with
    | .error e => .error e
    | .ok size => decodeData offset size ((b.drop (offset + DATA_OFFSET + 8)).take size)
  else
    .error (.badSegmentMagic offset)

/-- Lookup in the `segments` dict (line 186: `if offset in segments`),
modelled over an association list. -/
def findSeg (segs : List (Nat × Segment)) (o : Nat) : Option Segment :=
  match segs with
  | [] => none
  | e :: t => if e.1 = o then some e.2 else findSeg t o

/-- The `for p in seg.prior: walk_segment_tree(p[0])` loop (lines
192-193), parametrised by the recursive call. -/
def walkForLoop (w : List (Nat × Segment) → Nat → Except Err (List (Nat × Segment))) :
    List (Nat × Segment) → List Nat → Except Err (List (Nat × Segment))
  | segs, [] => .ok segs
  | segs, o :: os =>
    match w segs o with
    | .error e => .error e
    | .ok segs' => walkForLoop w segs' os

/-- Python `walk_segment_tree` (lines 185-193): the memoised recursive walk.
The fuel counts available recursion depth (Python's call-stack limit);
exhausting it is `RecursionError`.  The Python `if seg.prior is None`
check is dead code (a `Prior` is never `None`) and is omitted. -/
def walk_segment_tree (b : List Nat) : Nat → List (Nat × Segment) → Nat →
    Except Err (List (Nat × Segment))
  | 0, _, _ => .error .recursionError
  | fuel + 1, segs, offset =>
    if (findSeg segs offset).isSome then .ok segs
    else
      match decodeSegment b offset with
      | .error e => .error e
      | .ok seg => walkForLoop (walk_segment_tree b fuel) ((offset, seg) :: segs)
          (seg.prior.map Prod.fst)

/-- One line of the `graph.dot` output (lines 198-202): a node
declaration or an edge. -/
inductive DotLine where
  | node (offset : Nat)
  | edge (src dst : Nat)
deriving DecidableEq

/-- The export loop (lines 198-202): for every segment, one node line and
then one edge line per entry of its `prior` list.  (`s.prior is not None`
on line 200 is always true.)  Nothing is emitted for `parents`. -/
def exportGraph : List (Nat × Segment) → List DotLine
  | [] => []
  | e :: t =>
    (DotLine.node e.1 :: e.2.prior.map (fun p => DotLine.edge e.1 p.1)) ++ exportGraph t

/-- The offsets of the node lines of a graph, in order. -/
def nodeOffsets (g : List DotLine) : List Nat :=
  g.filterMap (fun l =>
    match l with
    | .node o => some o
    | .edge _ _ => none)

/-- The destinations of the edges leaving `k`, in order. -/
def edgesOf (g : List DotLine) (k : Nat) : List Nat :=
  g.filterMap (fun l =>
    match l with
    | .node _ => none
    | .edge s d => if s = k then some d else none)

/-- The keys of the segment map, in insertion order (newest first). -/
def keysOf (segs : List (Nat × Segment)) : List Nat :=
  segs.map Prod.fst

/-- The driver (lines 179-204): decode the header, take the head offset
(`h.head[0]` raises `TypeError` when `head` is `None`), decode and print
the head segment (line 182), walk the graph from the head (line 195) and
render the dot output.  The returned tuple carries everything the program
exposes. -/
def runDump (b : List Nat) (fuel : Nat) :
    Except Err (Header × Segment × List (Nat × Segment) × List DotLine) :=
  match decodeHeader b with
  | .error e => .error e
  | .ok h =>
    match h.head with
    | none => .error .typeError
    | some hd =>
      match decodeSegment b hd.1 with
      | .error e => .error e
      | .ok headSeg =>
        match walk_segment_tree b fuel [] hd.1 with
        | .error e => .error e
        | .ok segs => .ok (h, headSeg, segs, exportGraph segs)

/-! ### Specification-side definitions

These are not part of the program: they state, directly from the spec's
words, what a valid variable-length integer is and which value it
denotes, and what graph reachability through `prior` references means.
The theorems below relate the program's decoders to them. -/

/-- Value denoted by an LEB128 byte sequence per the spec: each byte
contributes its low 7 bits, least-significant group first. -/
def lebSpecValue : List Nat → Nat
  | [] => 0
  | byte :: rest => byte % 128 + 128 * lebSpecValue rest

/-- A valid variable-length integer encoding per the spec: at least one
byte, every byte below 256, a set high bit on every byte except the last,
a clear high bit on the last. -/
def isLebBytes : List Nat → Bool
  | [] => false
  | [byte] => decide (byte < 128)
  | byte :: rest => decide (128 ≤ byte) && decide (byte < 256) && isLebBytes rest

/-- Transitive reachability from `root` through the first components of
decoded segments' `prior` entries, over buffer `b`. -/
inductive ReachPrior (b : List Nat) (root : Nat) : Nat → Prop
  | refl : ReachPrior b root root
  | step {o : Nat} {seg : Segment} {p : Nat × Nat} :
      ReachPrior b root o → decodeSegment b o = .ok seg → p ∈ seg.prior →
      ReachPrior b root p.1

/-- Common part of the walk postcondition: the resulting map extends the
starting map with fresh, correctly decoded entries whose `prior`
references all resolve inside the resulting map. -/
def WalkPost (b : List Nat) (segs segs' new : List (Nat × Segment)) : Prop :=
  segs' = new ++ segs ∧
  (∀ k ∈ keysOf new, k ∉ keysOf segs) ∧
  (keysOf new).Nodup ∧
  (∀ e ∈ new, decodeSegment b e.1 = .ok e.2) ∧
  (∀ e ∈ new, ∀ p ∈ e.2.prior, p.1 ∈ keysOf segs')

/-! ### Concrete dumps used as witnesses and counterexamples -/

/-- A well-formed 28-byte header preamble: epoch 0, no graph id, head
present at `(0, 0)`, 0 stored bytes (with rkyv alignment padding). -/
def demoHeaderBytes : List Nat :=
  [0x1C, 0x53, 0x4F, 0x00] ++ [0, 0, 0, 0] ++ [0] ++ [0, 0, 0] ++ [1] ++ [0, 0, 0] ++
  [0, 0, 0, 0] ++ [0, 0, 0, 0] ++ [0, 0, 0, 0]

/-- The first `DATA_OFFSET` bytes of the minimal dump: the header
followed by padding. -/
def demoPre : List Nat := demoHeaderBytes ++ List.replicate 4068 0

/-- The segment slot of the minimal dump: sub-header magic, `size = 39`,
and a 39-byte all-zero payload (no priors, no parents, no commands). -/
def demoSegTail : List Nat :=
  SEGMENT_HEADER_MAGIC ++ [39, 0, 0, 0] ++ List.replicate 39 0

/-- A complete minimal dump: the header, padding up to `DATA_OFFSET`,
then one segment slot at offset 0. -/
def demoBuf : List Nat := demoPre ++ demoSegTail

/-- The decoded header of `demoBuf`. -/
def demoHdr : Header :=
  { epoch := 0, graph_id := none, head := some (0, 0), stored_bytes := 0 }

/-- The decoded segment of `demoBuf` at offset 0. -/
def demoSeg : Segment :=
  { offset := 0, size := 39, data := List.replicate 39 0, prior := [],
    parents := [], policy := List.replicate 32 0, facts := 0, type_ := some "init" }

/-- The segment map produced by walking `demoBuf` from offset 0. -/
def demoSegs : List (Nat × Segment) := [(0, demoSeg)]

/-- A 20-byte buffer holding a valid header whose optional `head` field
is absent (presence flag byte 0). -/
def hdrNoHeadBuf : List Nat := [0x1C, 0x53, 0x4F, 0x00] ++ List.replicate 16 0

/-- The decoded header of `hdrNoHeadBuf`. -/
def hdrNoHeadVal : Header :=
  { epoch := 0, graph_id := none, head := none, stored_bytes := 0 }

/-- A segment slot whose sub-header declares `size = 100` although only
39 payload bytes follow. -/
def cbuf6Tail : List Nat :=
  SEGMENT_HEADER_MAGIC ++ [100, 0, 0, 0] ++ List.replicate 39 0

/-- A buffer whose segment sub-header declares `size = 100` although only
39 payload bytes exist: the slice silently truncates. -/
def cbuf6 : List Nat := List.replicate 4096 0 ++ cbuf6Tail

/-- The segment the program decodes from `cbuf6`: `size` says 100 but
`data` holds only the 39 available bytes. -/
def cseg6 : Segment :=
  { offset := 0, size := 100, data := List.replicate 39 0, prior := [],
    parents := [], policy := List.replicate 32 0, facts := 0, type_ := some "init" }

/-- Bytes of a `CommandData` record with priority tag 0, no policy, empty
data, and updates count 1 — the smallest record whose `updates` decoding
is actually entered. -/
def cmdFailBytes : List Nat := List.replicate 32 0 ++ [0, 0, 0, 1]

/-- Bytes of a `CommandData` record with updates count 0, which decodes
successfully. -/
def cmd0bytes : List Nat := List.replicate 32 0 ++ [0, 0, 0, 0]

/-- The decoded value of `cmd0bytes`. -/
def cmd0val : CommandData :=
  { id := List.replicate 32 0, priority := 0, priority_value := none,
    policy := none, data := [], updates := [] }

/-! ### Arithmetic helpers for the varint codec -/

theorem and127_eq_mod (x : Nat) : x &&& 127 = x % 128 := by
  have h : (127 : Nat) = 2 ^ 7 - 1 := by norm_num
  rw [h, Nat.and_pow_two_sub_one_eq_mod]

theorem and128_of_lt (x : Nat) (h : x < 128) : x &&& 128 = 0 := by
  rw [show (128 : Nat) = 2 ^ 7 by norm_num, Nat.and_two_pow]
  have h7 : (2 : Nat) ^ 7 = 128 := by norm_num
  have hb : x.testBit 7 = false := Nat.testBit_lt_two_pow (by omega)
  simp [hb]

theorem and128_ne_of_ge (x : Nat) (h1 : 128 ≤ x) (h2 : x < 256) : x &&& 128 ≠ 0 := by
  rw [show (128 : Nat) = 2 ^ 7 by norm_num, Nat.and_two_pow]
  have h7 : (2 : Nat) ^ 7 = 128 := by norm_num
  have hb : x.testBit 7 = true := by
    simp only [Nat.testBit_to_div_mod, decide_eq_true_eq]
    rw [h7]
    omega
  simp [hb]

theorem lor_two_pow_mul_add :
    ∀ (n v w : Nat), w < 2 ^ n → (v * 2 ^ n) ||| w = v * 2 ^ n + w := by
  intro n
  induction n with
  | zero =>
    intro v w h
    have hw : w = 0 := by omega
    subst hw
    simp
  | succ n ih =>
    intro v w h
    have hpow : (2 : Nat) ^ (n + 1) = 2 * 2 ^ n := by ring
    have hw2 : w / 2 < 2 ^ n := by omega
    have hv : v * 2 ^ (n + 1) = Nat.bit false (v * 2 ^ n) := by
      simp [Nat.bit_val]
      ring
    have hw : Nat.bit (decide (w % 2 = 1)) (w / 2) = w := by
      by_cases hp : w % 2 = 1 <;> simp [hp, Nat.bit_val] <;> omega
    rw [hv, ← hw, Nat.lor_bit, ih v (w / 2) hw2]
    simp [Nat.bit_val]
    ring

theorem shiftLeft7_lor (v w : Nat) (h : w < 128) : (v <<< 7) ||| w = 128 * v + w := by
  rw [Nat.shiftLeft_eq]
  have h2 : (2 : Nat) ^ 7 = 128 := by norm_num
  rw [lor_two_pow_mul_add 7 v w (by omega), h2]
  ring

/-! ### The varint decoder on valid encodings -/

theorem get_u8_at (pre suf : List Nat) (x : Nat) (r : Bool) :
    get_u8 ⟨pre ++ x :: suf, pre.length, r⟩ =
      .ok (x, ⟨pre ++ x :: suf, pre.length + 1, r⟩) := by
  have hlt : pre.length < (pre ++ x :: suf).length := by simp
  unfold get_u8
  rw [dif_pos hlt]
  simp [List.get_eq_getElem, List.getElem_append_right (Nat.le_refl pre.length)]

theorem lebLoop_valid :
    ∀ (bs pre suf : List Nat) (r : Bool) (fuel : Nat), isLebBytes bs = true →
      bs.length ≤ fuel →
      lebLoop fuel ⟨pre ++ bs ++ suf, pre.length, r⟩ =
        .ok (bs.map (fun x => x &&& 127),
             ⟨pre ++ bs ++ suf, pre.length + bs.length, r⟩) := by
  intro bs
  induction bs with
  | nil => intro pre suf r fuel hv; simp [isLebBytes] at hv
  | cons x rest ih =>
    intro pre suf r fuel hv hfuel
    obtain ⟨fuel, rfl⟩ : ∃ f, fuel = f + 1 := by
      cases fuel with
      | zero => simp at hfuel
      | succ f => exact ⟨f, rfl⟩
    cases rest with
    | nil =>
      have hx : x < 128 := by simpa [isLebBytes] using hv
      unfold lebLoop
      have hcur : pre ++ [x] ++ suf = pre ++ x :: suf := by simp
      rw [hcur]
      simp only [get_u8_at pre suf x r]
      rw [if_neg (by simp [and128_of_lt x hx])]
      simp [and127_eq_mod, Nat.mod_eq_of_lt hx]
    | cons y t =>
      have hv' : (128 ≤ x ∧ x < 256) ∧ isLebBytes (y :: t) = true := by
        simpa [isLebBytes, Bool.and_eq_true, decide_eq_true_eq] using hv
      have hfuel' : (y :: t).length ≤ fuel := by
        simp at hfuel ⊢
        omega
      unfold lebLoop
      have hcur : pre ++ (x :: y :: t) ++ suf = pre ++ x :: (y :: t ++ suf) := by simp
      rw [hcur]
      simp only [get_u8_at pre (y :: t ++ suf) x r]
      rw [if_pos (and128_ne_of_ge x hv'.1.1 hv'.1.2)]
      have hsplit : pre ++ x :: (y :: t ++ suf) = (pre ++ [x]) ++ (y :: t) ++ suf := by
        simp
      have hlen : pre.length + 1 = (pre ++ [x]).length := by simp
      rw [hsplit, hlen]
      simp only [ih (pre ++ [x]) suf r fuel hv'.2 hfuel']
      simp [Cursor.mk.injEq, List.map]
      omega

theorem lebFold_masked :
    ∀ bs : List Nat, lebFold (bs.map (fun x => x &&& 127)) = lebSpecValue bs := by
  intro bs
  induction bs with
  | nil => rfl
  | cons x rest ih =>
    have hlt : x &&& 127 < 128 := by
      rw [and127_eq_mod]
      omega
    simp only [List.map, lebFold, List.foldr] at ih ⊢
    rw [shiftLeft7_lor _ _ hlt, and127_eq_mod, ih, lebSpecValue]
    ring

/-- Shared helper: on any buffer containing a valid LEB128 encoding at
the cursor position, `get_leb` returns the denoted value and leaves the
cursor right after the encoding. -/
theorem getLeb_valid (pre bs suf : List Nat) (r : Bool) (hv : isLebBytes bs = true) :
    get_leb ⟨pre ++ bs ++ suf, pre.length, r⟩ =
      .ok (lebSpecValue bs, ⟨pre ++ bs ++ suf, pre.length + bs.length, r⟩) := by
  have hfuel : bs.length ≤ (pre ++ bs ++ suf).length - pre.length + 1 := by
    simp [List.length_append]
    omega
  unfold get_leb
  simp only [lebLoop_valid bs pre suf r _ hv hfuel, lebFold_masked]

/-- C1: the varint decoder implements standard little-endian-group
LEB128: on every byte sequence that is a valid variable-length integer
(low 7 bits of each byte are data, a set high bit means continuation,
least-significant group first), `get_leb` returns the denoted unsigned
integer and consumes exactly the encoding's bytes. -/
theorem varint_decodes_leb128 (pre bs suf : List Nat) (r : Bool)
    (hv : isLebBytes bs = true) :
    get_leb ⟨pre ++ bs ++ suf, pre.length, r⟩ =
      .ok (lebSpecValue bs, ⟨pre ++ bs ++ suf, pre.length + bs.length, r⟩) :=
  getLeb_valid pre bs suf r hv

/-- Witness for C1 at the four encodings named by the claim:
`[0x00] → 0`, `[0x7F] → 127`, `[0x80, 0x01] → 128`, `[0x96, 0x01] → 150`,
each consuming exactly the encoding. -/
theorem varint_decodes_leb128_witness :
    get_leb ⟨[0x00], 0, false⟩ = .ok (0, ⟨[0x00], 1, false⟩) ∧
    get_leb ⟨[0x7F], 0, false⟩ = .ok (127, ⟨[0x7F], 1, false⟩) ∧
    get_leb ⟨[0x80, 0x01], 0, false⟩ = .ok (128, ⟨[0x80, 0x01], 2, false⟩) ∧
    get_leb ⟨[0x96, 0x01], 0, false⟩ = .ok (150, ⟨[0x96, 0x01], 2, false⟩) :=
  ⟨varint_decodes_leb128 [] [0x00] [] false (by decide),
   varint_decodes_leb128 [] [0x7F] [] false (by decide),
   varint_decodes_leb128 [] [0x80, 0x01] [] false (by decide),
   varint_decodes_leb128 [] [0x96, 0x01] [] false (by decide)⟩

/-- C5: bounded-list (`Prior`) decoding reads a varint count first; a
count byte 0 yields the empty list consuming exactly that one byte, and
a decoded count above 2 fails with the bounded-list overflow error for
every element decoder, i.e. before any element is decoded. -/
theorem boundedList_zero_and_overflow {α : Type}
    (dec : Cursor → Except Err (α × Cursor)) (pre suf : List Nat) (r : Bool)
    (cur : Cursor) (tag : Nat) (cur' : Cursor) :
    (get_prior dec ⟨pre ++ 0 :: suf, pre.length, r⟩ =
      .ok ([], ⟨pre ++ 0 :: suf, pre.length + 1, r⟩)) ∧
    (get_leb cur = .ok (tag, cur') → 2 < tag →
      get_prior dec cur = .error .tooManyItems) := by
  constructor
  · have hcur : pre ++ 0 :: suf = pre ++ [0] ++ suf := by simp
    rw [hcur]
    unfold get_prior
    simp only [getLeb_valid pre [0] suf r (by decide)]
    simp [decodeLoop, lebSpecValue]
  · intro hleb htag
    unfold get_prior
    rw [hleb]
    simp [htag]

/-- Witness for C5: a count byte `0x00` yields `[]` and advances by one
byte; a count byte `0x03` (decoding to 3 > 2) fails with the overflow
error. -/
theorem boundedList_zero_and_overflow_witness :
    (get_prior get_u8 ⟨[0, 9], 0, false⟩ = .ok ([], ⟨[0, 9], 1, false⟩)) ∧
    (get_prior get_u8 ⟨[3], 0, false⟩ = .error .tooManyItems) := by
  have h := boundedList_zero_and_overflow get_u8 [] [9] false ⟨[3], 0, false⟩ 3 ⟨[3], 1, false⟩
  exact ⟨h.1, h.2 rfl (by omega)⟩

/-- C9: header decoding fails with the format-mismatch error whenever
the first four bytes differ from `1C 53 4F 00`, before any other field
is touched (the error is `badHeaderMagic` for every such buffer,
whatever the rest of the bytes are); on a matching magic the remaining
fields are decoded by `decodeHeaderFields` in source order over the
word-aligned cursor placed after the magic. -/
theorem header_magic_gate (b : List Nat) :
    (b.take 4 ≠ STORAGE_HEADER_MAGIC → decodeHeader b = .error .badHeaderMagic) ∧
    (b.take 4 = STORAGE_HEADER_MAGIC → decodeHeader b = decodeHeaderFields ⟨b, 4, true⟩) := by
  constructor
  · intro hne
    simp [decodeHeader, get_bytes, peek_bytes, hne]
  · intro heq
    simp [decodeHeader, get_bytes, peek_bytes, heq]

/-- Witness for C9: a one-byte buffer mismatches and fails with the
magic error; `hdrNoHeadBuf` matches and proceeds to the field decoder. -/
theorem header_magic_gate_witness :
    (decodeHeader [9] = .error .badHeaderMagic) ∧
    (decodeHeader hdrNoHeadBuf = decodeHeaderFields ⟨hdrNoHeadBuf, 4, true⟩) :=
  ⟨(header_magic_gate [9]).1 (by decide),
   (header_magic_gate hdrNoHeadBuf).2 (by decide)⟩

/-- C10: when the header decodes with an absent `head` field, the driver
fails (with the `TypeError` of `h.head[0]`) before decoding any segment
or emitting any graph output: `runDump` returns an error, never a
(possibly empty) graph. -/
theorem missing_head_fails (b : List Nat) (fuel : Nat) (h : Header)
    (hdec : decodeHeader b = .ok h) (hnone : h.head = none) :
    runDump b fuel = .error .typeError := by
  simp [runDump, hdec, hnone]

/-- Witness for C10 on the concrete 20-byte header `hdrNoHeadBuf` whose
`head` presence flag is 0. -/
theorem missing_head_fails_witness : runDump hdrNoHeadBuf 5 = .error .typeError :=
  missing_head_fails hdrNoHeadBuf 5 hdrNoHeadVal rfl rfl

/-! ### Structure of successful decodes -/

theorem decodeLoop_length {α : Type} (dec : Cursor → Except Err (α × Cursor)) :
    ∀ (n : Nat) (cur : Cursor) (vs : List α) (cur' : Cursor),
      decodeLoop dec n cur = .ok (vs, cur') → vs.length = n := by
  intro n
  induction n with
  | zero =>
    intro cur vs cur' h
    unfold decodeLoop at h
    injection h with h
    injection h with h1 h2
    rw [← h1]
    rfl
  | succ n ih =>
    intro cur vs cur' h
    unfold decodeLoop at h
    split at h
    · exact Except.noConfusion h
    rename_i v c1 h1
    split at h
    · exact Except.noConfusion h
    rename_i vs0 c2 h2
    injection h with h
    injection h with h3 h4
    rw [← h3]
    simp [ih c1 vs0 c2 h2]

theorem get_prior_ok {α : Type} (dec : Cursor → Except Err (α × Cursor))
    (cur : Cursor) {l : List α} {cur' : Cursor}
    (h : get_prior dec cur = .ok (l, cur')) : l.length ≤ 2 := by
  unfold get_prior at h
  split at h
  · exact Except.noConfusion h
  rename_i tag c1 h1
  split at h
  · exact Except.noConfusion h
  rename_i htag
  have := decodeLoop_length dec tag c1 l cur' h
  omega

theorem priorityValueStep_ok (tag : Nat) (cur : Cursor) (pv : Option Nat)
    (cur' : Cursor) (h : priorityValueStep tag cur = .ok (pv, cur')) :
    pv.isSome ↔ tag = 1 := by
  unfold priorityValueStep at h
  by_cases ht : tag = 1
  · rw [if_pos ht] at h
    split at h
    · exact Except.noConfusion h
    rename_i v c1 h1
    injection h with h
    injection h with h2 h3
    simp [← h2, ht]
  · rw [if_neg ht] at h
    injection h with h
    injection h with h2 h3
    simp [← h2, ht]

theorem decodeCommandData_fields (cur : Cursor) (cd : CommandData) (cur' : Cursor)
    (h : decodeCommandData cur = .ok (cd, cur')) :
    cd.priority_value.isSome ↔ cd.priority = 1 := by
  unfold decodeCommandData at h
  simp only [] at h
  split at h
  · exact Except.noConfusion h
  rename_i priority c2 h1
  split at h
  · exact Except.noConfusion h
  rename_i pv c3 h2
  split at h
  · exact Except.noConfusion h
  rename_i policy c4 h3
  split at h
  · exact Except.noConfusion h
  rename_i dat c5 h4
  split at h
  · exact Except.noConfusion h
  rename_i updates c6 h5
  injection h with h
  injection h with hcd hcur
  subst hcd
  exact priorityValueStep_ok priority c2 pv c3 h2

theorem decodeData_fields (o s : Nat) (d : List Nat) (seg : Segment)
    (h : decodeData o s d = .ok seg) :
    seg.offset = o ∧ seg.size = s ∧ seg.data = d ∧ seg.parents.length ≤ 2 ∧
    seg.type_ = segKind seg.parents.length := by
  unfold decodeData at h
  simp only [] at h
  split at h
  · exact Except.noConfusion h
  rename_i selfOff c1 h1
  split at h
  · exact Except.noConfusion h
  rename_i prior c2 h2
  split at h
  · exact Except.noConfusion h
  rename_i parents c3 h3
  split at h
  · exact Except.noConfusion h
  rename_i facts c5 h4
  split at h
  · exact Except.noConfusion h
  rename_i cmds c6 h5
  split at h
  · exact Except.noConfusion h
  rename_i maxCut c7 h6
  split at h
  · exact Except.noConfusion h
  rename_i skip c8 h7
  injection h with h
  subst h
  exact ⟨rfl, rfl, rfl, get_prior_ok decode_address c2 h3, rfl⟩

theorem unpackU32from_ok (b : List Nat) (pos v : Nat)
    (h : unpackU32from b pos = .ok v) : pos + 4 ≤ b.length := by
  unfold unpackU32from at h
  split at h
  · rename_i b0 b1 b2 b3 heq
    have hl : ((b.drop pos).take 4).length = 4 := by rw [heq]; rfl
    simp [List.length_take, List.length_drop] at hl
    omega
  · exact Except.noConfusion h

/-! ### Evaluating the concrete dumps

`DATA_OFFSET` is 4096, so evaluating `decodeSegment` on a literal buffer
directly would recurse through thousands of list cells; the shift lemma
moves the decode onto the short segment slot instead. -/

theorem decodeSegment_shift (pre rest : List Nat) (o : Nat)
    (h : pre.length = o + DATA_OFFSET) :
    decodeSegment (pre ++ rest) o =
      (if rest.take 4 = SEGMENT_HEADER_MAGIC then
        match unpackU32from rest 4 with
        | .error e => .error e
        | .ok size => decodeData o size ((rest.drop 8).take size)
      else .error (.badSegmentMagic o)) := by
  have h0 : (pre ++ rest).drop (o + DATA_OFFSET) = rest := List.drop_left' h
  have h4 : (pre ++ rest).drop (o + DATA_OFFSET + 4) = rest.drop 4 := by
    rw [← List.drop_drop 4 (o + DATA_OFFSET), h0]
  have h8 : (pre ++ rest).drop (o + DATA_OFFSET + 8) = rest.drop 8 := by
    rw [← List.drop_drop 8 (o + DATA_OFFSET), h0]
  unfold decodeSegment unpackU32from
  rw [h0, h4, h8]

theorem demoSeg_decode : decodeSegment demoBuf 0 = .ok demoSeg := by
  unfold demoBuf
  rw [decodeSegment_shift demoPre demoSegTail 0
    (by simp only [demoPre, demoHeaderBytes, List.length_append,
      List.length_replicate, List.length_cons, List.length_nil]; rfl)]
  rfl

theorem cseg6_decode : decodeSegment cbuf6 0 = .ok cseg6 := by
  unfold cbuf6
  rw [decodeSegment_shift (List.replicate 4096 0) cbuf6Tail 0
    (by simp only [List.length_replicate]; rfl)]
  rfl

theorem demoHdr_decode : decodeHeader demoBuf = .ok demoHdr := by
  have hsplit8 : demoBuf = [0x1C, 0x53, 0x4F, 0x00, 0, 0, 0, 0] ++ 0 ::
      ([0, 0, 0, 1, 0, 0, 0, 0, 0, 0, 0, 0, 0, 0, 0, 0, 0, 0, 0] ++
        (List.replicate 4068 0 ++ demoSegTail)) := by
    show (demoHeaderBytes ++ List.replicate 4068 0) ++ demoSegTail = _
    rw [show demoHeaderBytes = [0x1C, 0x53, 0x4F, 0x00, 0, 0, 0, 0] ++ 0 ::
      [0, 0, 0, 1, 0, 0, 0, 0, 0, 0, 0, 0, 0, 0, 0, 0, 0, 0, 0] from rfl]
    simp only [List.cons_append, List.nil_append, List.append_assoc]
  have hsplit12 : demoBuf = [0x1C, 0x53, 0x4F, 0x00, 0, 0, 0, 0, 0, 0, 0, 0] ++ 1 ::
      ([0, 0, 0, 0, 0, 0, 0, 0, 0, 0, 0, 0, 0, 0, 0] ++
        (List.replicate 4068 0 ++ demoSegTail)) := by
    show (demoHeaderBytes ++ List.replicate 4068 0) ++ demoSegTail = _
    rw [show demoHeaderBytes = [0x1C, 0x53, 0x4F, 0x00, 0, 0, 0, 0, 0, 0, 0, 0] ++ 1 ::
      [0, 0, 0, 0, 0, 0, 0, 0, 0, 0, 0, 0, 0, 0, 0] from rfl]
    simp only [List.cons_append, List.nil_append, List.append_assoc]
  have hu8a : get_u8 ⟨demoBuf, 8, true⟩ = .ok (0, ⟨demoBuf, 9, true⟩) := by
    rw [hsplit8]
    exact get_u8_at [0x1C, 0x53, 0x4F, 0x00, 0, 0, 0, 0]
      ([0, 0, 0, 1, 0, 0, 0, 0, 0, 0, 0, 0, 0, 0, 0, 0, 0, 0, 0] ++
        (List.replicate 4068 0 ++ demoSegTail)) 0 true
  have hu8b : get_u8 ⟨demoBuf, 12, true⟩ = .ok (1, ⟨demoBuf, 13, true⟩) := by
    rw [hsplit12]
    exact get_u8_at [0x1C, 0x53, 0x4F, 0x00, 0, 0, 0, 0, 0, 0, 0, 0]
      ([0, 0, 0, 0, 0, 0, 0, 0, 0, 0, 0, 0, 0, 0, 0] ++
        (List.replicate 4068 0 ++ demoSegTail)) 1 true
  have h2 : get_bool ⟨demoBuf, 8, true⟩ = .ok (false, ⟨demoBuf, 9, true⟩) := by
    unfold get_bool
    rw [hu8a]
    rfl
  have h3 : get_bool ⟨demoBuf, 12, true⟩ = .ok (true, ⟨demoBuf, 13, true⟩) := by
    unfold get_bool
    rw [hu8b]
    rfl
  have h1 : get_u32 ⟨demoBuf, 4, true⟩ = .ok (0, ⟨demoBuf, 8, true⟩) := rfl
  have h4 : get_u32 ⟨demoBuf, 13, true⟩ = .ok (0, ⟨demoBuf, 20, true⟩) := rfl
  have h5 : get_u32 ⟨demoBuf, 20, true⟩ = .ok (0, ⟨demoBuf, 24, true⟩) := rfl
  have h6 : get_u32 ⟨demoBuf, 24, true⟩ = .ok (0, ⟨demoBuf, 28, true⟩) := rfl
  have hmagic : (get_bytes 4 ⟨demoBuf, 0, true⟩).1 = STORAGE_HEADER_MAGIC := rfl
  unfold decodeHeader
  rw [if_pos hmagic]
  show decodeHeaderFields ⟨demoBuf, 4, true⟩ = .ok demoHdr
  unfold decodeHeaderFields
  simp [h1, get_option, h2, h3, cursorAlign, h4, h5, h6, demoHdr]

theorem walk_one_segment (b : List Nat) (fuel : Nat) (o : Nat) (seg : Segment)
    (hdec : decodeSegment b o = .ok seg) (hpr : seg.prior = []) :
    walk_segment_tree b (fuel + 1) [] o = .ok [(o, seg)] := by
  unfold walk_segment_tree
  simp [findSeg, hdec, hpr, walkForLoop]

theorem demoWalk_eq : walk_segment_tree demoBuf 2 [] 0 = .ok demoSegs := by
  show walk_segment_tree demoBuf (1 + 1) [] 0 = .ok demoSegs
  rw [walk_one_segment demoBuf 1 0 demoSeg demoSeg_decode rfl]
  rfl

theorem demoRun_eq :
    runDump demoBuf 2 = .ok (demoHdr, demoSeg, demoSegs, [DotLine.node 0]) := by
  unfold runDump
  simp only [demoHdr_decode, show demoHdr.head = some (0, 0) from rfl,
    demoSeg_decode, demoWalk_eq]
  rfl

/-- C2 (code bug): a `CommandData` record whose `updates` count is 1
does not decode: the program reaches the `c.get_string()` call, which
raises `AttributeError` because `Cursor` has no such method.  Here the
concrete record has a 32-byte id, priority tag 0, absent policy, empty
data, and updates count 1. -/
theorem commandData_nonempty_updates_fails :
    decodeCommandData ⟨cmdFailBytes, 0, false⟩ = .error .attributeError := rfl

/-- C3 (amended): the fixed-width reads fail past the end of the buffer
(`get_u8` with `IndexError`, `get_u16`/`get_u32` with `struct.error`
after their alignment step), but the raw `get_bytes` primitive never
fails: it returns the truncated available bytes and still advances the
cursor by the full requested count, and `get_byte_array` therefore also
silently returns truncated data after its length varint. -/
theorem cursor_read_bounds (cur : Cursor) :
    (cur.b.length ≤ cur.c → get_u8 cur = .error .indexError) ∧
    (∀ n, get_bytes n cur = ((cur.b.drop cur.c).take n, ⟨cur.b, cur.c + n, cur.rkyv⟩)) ∧
    (∀ n, (get_bytes n cur).1.length = min n (cur.b.length - cur.c)) ∧
    ((alignedFor cur).b.length < (alignedFor cur).c + 2 →
      get_u16 cur = .error .structError) ∧
    ((alignedFor cur).b.length < (alignedFor cur).c + 4 →
      get_u32 cur = .error .structError) ∧
    (∀ l cur', get_leb cur = .ok (l, cur') →
      get_byte_array cur = .ok (get_bytes l cur')) := by
  refine ⟨?_, ?_, ?_, ?_, ?_, ?_⟩
  · intro h
    unfold get_u8
    rw [dif_neg (by omega)]
  · intro n
    rfl
  · intro n
    simp [get_bytes, peek_bytes, List.length_take, List.length_drop]
  · intro h
    unfold get_u16
    rcases hp : peek_bytes 2 (alignedFor cur) with - | ⟨a, - | ⟨a2, t⟩⟩
    · simp [get_bytes, hp]
    · simp [get_bytes, hp]
    · exfalso
      have hl : (peek_bytes 2 (alignedFor cur)).length ≤ 1 := by
        simp [peek_bytes, List.length_take, List.length_drop]
        omega
      rw [hp] at hl
      simp at hl
  · intro h
    unfold get_u32
    rcases hp : peek_bytes 4 (alignedFor cur) with - | ⟨a, - | ⟨a2, - | ⟨a3, - | ⟨a4, t⟩⟩⟩⟩
    · simp [get_bytes, hp]
    · simp [get_bytes, hp]
    · simp [get_bytes, hp]
    · simp [get_bytes, hp]
    · exfalso
      have hl : (peek_bytes 4 (alignedFor cur)).length ≤ 3 := by
        simp [peek_bytes, List.length_take, List.length_drop]
        omega
      rw [hp] at hl
      simp at hl
  · intro l cur' hleb
    unfold get_byte_array
    rw [hleb]

/-- Counterexample to C3 as stated: a length-prefixed read that declares
five bytes on a buffer holding none returns `ok` with the empty blob
(cursor advanced past the end) instead of failing, and a raw four-byte
read on a one-byte buffer returns the single available byte. -/
theorem cursor_read_bounds_cex :
    get_byte_array ⟨[5], 0, false⟩ = .ok ([], ⟨[5], 6, false⟩) ∧
    get_bytes 4 ⟨[7], 0, false⟩ = ([7], ⟨[7], 4, false⟩) := ⟨rfl, rfl⟩

/-- Witness for the amended C3 at concrete cursors: each fixed-width
primitive failing out of bounds, and the two truncating primitives. -/
theorem cursor_read_bounds_witness :
    (get_u8 ⟨[], 0, false⟩ = .error .indexError) ∧
    (get_u16 ⟨[0], 0, false⟩ = .error .structError) ∧
    (get_u32 ⟨[0, 0, 0], 0, false⟩ = .error .structError) ∧
    (get_bytes 4 ⟨[7], 2, false⟩ = ([], ⟨[7], 6, false⟩)) ∧
    (get_byte_array ⟨[5], 0, false⟩ = .ok (get_bytes 5 ⟨[5], 1, false⟩)) :=
  ⟨(cursor_read_bounds ⟨[], 0, false⟩).1 (by decide),
   (cursor_read_bounds ⟨[0], 0, false⟩).2.2.2.1 (by decide),
   (cursor_read_bounds ⟨[0, 0, 0], 0, false⟩).2.2.2.2.1 (by decide),
   (cursor_read_bounds ⟨[7], 2, false⟩).2.1 4,
   (cursor_read_bounds ⟨[5], 0, false⟩).2.2.2.2.2 5 ⟨[5], 1, false⟩ rfl⟩

/-- C6 (amended): a successful segment decode at offset `o` implies the
sub-header magic matched at `o + DATA_OFFSET`, `size` was read as a
little-endian u32 right after it, and the payload is the slice starting
at `o + DATA_OFFSET + 8` of length `min size (remaining bytes)` — exactly
`size` bytes whenever the buffer extends that far, fewer otherwise — and
the payload decoded through `decodeData`'s fixed unaligned field order. -/
theorem decodeSegment_layout (b : List Nat) (o : Nat) (seg : Segment)
    (h : decodeSegment b o = .ok seg) :
    (b.drop (o + DATA_OFFSET)).take 4 = SEGMENT_HEADER_MAGIC ∧
    o + DATA_OFFSET + 8 ≤ b.length ∧
    unpackU32from b (o + DATA_OFFSET + 4) = .ok seg.size ∧
    seg.data = (b.drop (o + DATA_OFFSET + 8)).take seg.size ∧
    seg.data.length = min seg.size (b.length - (o + DATA_OFFSET + 8)) ∧
    (o + DATA_OFFSET + 8 + seg.size ≤ b.length → seg.data.length = seg.size) ∧
    decodeData o seg.size seg.data = .ok seg := by
  unfold decodeSegment at h
  split at h
  · rename_i hmagic
    split at h
    · exact Except.noConfusion h
    rename_i size h1
    obtain ⟨hoff, hsz, hdata, hple, hty⟩ := decodeData_fields o size _ seg h
    have hb := unpackU32from_ok b (o + DATA_OFFSET + 4) size h1
    have hdl : seg.data.length = min seg.size (b.length - (o + DATA_OFFSET + 8)) := by
      rw [hdata, hsz]
      simp [List.length_take, List.length_drop]
    refine ⟨hmagic, by omega, ?_, ?_, hdl, ?_, ?_⟩
    · rw [hsz]
      exact h1
    · rw [hsz]
      exact hdata
    · intro hle
      rw [hdl]
      omega
    · rw [hsz, hdata]
      exact h
  · exact Except.noConfusion h

/-- Counterexample to C6 as stated: in `cbuf6` the sub-header declares
`size = 100` but only 39 payload bytes exist; the decode nevertheless
succeeds with a 39-byte payload, so the payload is not "exactly `size`
bytes". -/
theorem decodeSegment_layout_cex :
    decodeSegment cbuf6 0 = .ok cseg6 ∧ cseg6.size = 100 ∧
    cseg6.data.length = 39 := ⟨cseg6_decode, rfl, rfl⟩

/-- Witness for the amended C6 on the well-formed dump `demoBuf`. -/
theorem decodeSegment_layout_witness :
    (demoBuf.drop (0 + DATA_OFFSET)).take 4 = SEGMENT_HEADER_MAGIC ∧
    demoSeg.data.length = min demoSeg.size (demoBuf.length - (0 + DATA_OFFSET + 8)) ∧
    decodeData 0 demoSeg.size demoSeg.data = .ok demoSeg := by
  have h := decodeSegment_layout demoBuf 0 demoSeg demoSeg_decode
  exact ⟨h.1, h.2.2.2.2.1, h.2.2.2.2.2.2⟩

/-- C7: for every successfully decoded segment the parent list has at
most two entries, and its kind is determined purely by that length:
0 parents gives `init`, 1 gives `basic`, 2 gives `merge`. -/
theorem segment_kind_from_parents (b : List Nat) (o : Nat) (seg : Segment)
    (h : decodeSegment b o = .ok seg) :
    seg.parents.length ≤ 2 ∧
    (seg.parents.length = 0 → seg.type_ = some "init") ∧
    (seg.parents.length = 1 → seg.type_ = some "basic") ∧
    (seg.parents.length = 2 → seg.type_ = some "merge") := by
  unfold decodeSegment at h
  split at h
  · split at h
    · exact Except.noConfusion h
    rename_i size h1
    obtain ⟨-, -, -, hple, hty⟩ := decodeData_fields o size _ seg h
    refine ⟨hple, ?_, ?_, ?_⟩ <;> intro hn <;> rw [hty, hn] <;> rfl
  · exact Except.noConfusion h

/-- Witness for C7 on the init segment of `demoBuf` (zero parents). -/
theorem segment_kind_from_parents_witness :
    demoSeg.parents.length ≤ 2 ∧ demoSeg.type_ = some "init" := by
  have h := segment_kind_from_parents demoBuf 0 demoSeg demoSeg_decode
  exact ⟨h.1, h.2.1 rfl⟩

/-- C8: in `CommandData` decoding the extra `priority_value` varint is
present if and only if the previously decoded priority tag equals 1
(the `Basic` discriminant); for every other tag the conditional step
consumes nothing and leaves the value absent. -/
theorem commandData_priority_conditional (cur : Cursor) (cd : CommandData)
    (cur' : Cursor) (h : decodeCommandData cur = .ok (cd, cur')) :
    (cd.priority_value.isSome ↔ cd.priority = 1) ∧
    (∀ tag c, tag ≠ 1 → priorityValueStep tag c = .ok (none, c)) :=
  ⟨decodeCommandData_fields cur cd cur' h,
   fun tag c ht => by simp [priorityValueStep, ht]⟩

/-- Witness for C8 on the concrete record `cmd0bytes` (tag 0, no extra
varint) and the skipping step at tag 5. -/
theorem commandData_priority_conditional_witness :
    (cmd0val.priority_value.isSome ↔ cmd0val.priority = 1) ∧
    priorityValueStep 5 ⟨[], 0, false⟩ = .ok (none, ⟨[], 0, false⟩) := by
  have h := commandData_priority_conditional ⟨cmd0bytes, 0, false⟩ cmd0val
    ⟨cmd0bytes, 36, false⟩ rfl
  exact ⟨h.1, h.2 5 ⟨[], 0, false⟩ (by omega)⟩

/-! ### The graph walk and export -/

theorem keysOf_cons (e : Nat × Segment) (t : List (Nat × Segment)) :
    keysOf (e :: t) = e.1 :: keysOf t := rfl

theorem keysOf_append (a b : List (Nat × Segment)) :
    keysOf (a ++ b) = keysOf a ++ keysOf b := by
  simp [keysOf]

theorem findSeg_isSome_iff (segs : List (Nat × Segment)) (o : Nat) :
    (findSeg segs o).isSome = true ↔ o ∈ keysOf segs := by
  induction segs with
  | nil => simp [findSeg, keysOf]
  | cons e t ih =>
    by_cases he : e.1 = o
    · simp [findSeg, keysOf, he]
    · have hne : ¬(o = e.1) := fun hh => he hh.symm
      simp [findSeg, keysOf, he, hne, ih]

theorem nodeOffsets_append (g1 g2 : List DotLine) :
    nodeOffsets (g1 ++ g2) = nodeOffsets g1 ++ nodeOffsets g2 := by
  simp [nodeOffsets]

theorem edgesOf_append (g1 g2 : List DotLine) (k : Nat) :
    edgesOf (g1 ++ g2) k = edgesOf g1 k ++ edgesOf g2 k := by
  simp [edgesOf]

theorem nodeOffsets_edges (a : Nat) (l : List (Nat × Nat)) :
    nodeOffsets (l.map (fun p => DotLine.edge a p.1)) = [] := by
  induction l with
  | nil => rfl
  | cons p t ih =>
    simp only [List.map_cons, nodeOffsets, List.filterMap_cons]
    exact ih

theorem edgesOfMap (a k : Nat) (l : List (Nat × Nat)) :
    edgesOf (l.map (fun p => DotLine.edge a p.1)) k =
      if a = k then l.map Prod.fst else [] := by
  induction l with
  | nil => by_cases h : a = k <;> simp [edgesOf, h]
  | cons p t ih =>
    by_cases h : a = k
    · simp [edgesOf, List.filterMap_cons, h] at ih ⊢
      exact ih
    · simp [edgesOf, List.filterMap_cons, h] at ih ⊢

theorem edgesOf_block (a k : Nat) (l : List (Nat × Nat)) :
    edgesOf (DotLine.node a :: l.map (fun p => DotLine.edge a p.1)) k =
      if a = k then l.map Prod.fst else [] := by
  rw [show DotLine.node a :: l.map (fun p => DotLine.edge a p.1) =
        [DotLine.node a] ++ l.map (fun p => DotLine.edge a p.1) from rfl,
      edgesOf_append, edgesOfMap]
  simp [edgesOf, List.filterMap_cons]

theorem edgesOf_absent (segs : List (Nat × Segment)) (k : Nat)
    (h : k ∉ keysOf segs) : edgesOf (exportGraph segs) k = [] := by
  induction segs with
  | nil => rfl
  | cons e t ih =>
    rw [keysOf_cons] at h
    unfold exportGraph
    rw [edgesOf_append, edgesOf_block]
    rw [if_neg (fun he => h (by rw [he]; exact List.mem_cons_self _ _))]
    simpa using ih (fun hm => h (List.mem_cons_of_mem _ hm))

theorem nodeOffsets_exportGraph (segs : List (Nat × Segment)) :
    nodeOffsets (exportGraph segs) = keysOf segs := by
  induction segs with
  | nil => rfl
  | cons e t ih =>
    unfold exportGraph
    rw [show DotLine.node e.1 :: e.2.prior.map (fun p => DotLine.edge e.1 p.1) =
          [DotLine.node e.1] ++ e.2.prior.map (fun p => DotLine.edge e.1 p.1) from rfl]
    rw [List.append_assoc, nodeOffsets_append, nodeOffsets_append,
        nodeOffsets_edges, keysOf_cons, ih]
    simp [nodeOffsets, List.filterMap_cons]

theorem edgesOf_exportGraph (segs : List (Nat × Segment))
    (hnd : (keysOf segs).Nodup) :
    ∀ k s, (k, s) ∈ segs → edgesOf (exportGraph segs) k = s.prior.map Prod.fst := by
  induction segs with
  | nil => intro k s h; simp at h
  | cons e t ih =>
    intro k s h
    rw [keysOf_cons, List.nodup_cons] at hnd
    unfold exportGraph
    rw [edgesOf_append, edgesOf_block]
    rcases List.mem_cons.mp h with rfl | hm
    · rw [if_pos rfl, edgesOf_absent t k hnd.1]
      simp
    · have hk : k ∈ keysOf t := List.mem_map.mpr ⟨(k, s), hm, rfl⟩
      rw [if_neg (fun he => hnd.1 (by rw [he]; exact hk))]
      simpa using ih hnd.2 k s hm

theorem edge_mem_exportGraph (segs : List (Nat × Segment)) (src dst : Nat)
    (h : DotLine.edge src dst ∈ exportGraph segs) :
    ∃ s, (src, s) ∈ segs ∧ dst ∈ s.prior.map Prod.fst := by
  induction segs with
  | nil => simp [exportGraph] at h
  | cons e t ih =>
    unfold exportGraph at h
    rcases List.mem_append.mp h with hb | ht
    · rcases List.mem_cons.mp hb with hn | he
      · exact absurd hn (by simp)
      · obtain ⟨p, hp, hpe⟩ := List.mem_map.mp he
        obtain ⟨h1, h2⟩ : e.1 = src ∧ p.1 = dst := by
          constructor <;> injection hpe.symm <;> omega
        refine ⟨e.2, ?_, ?_⟩
        · rw [← h1]
          exact List.mem_cons_self _ _
        · exact List.mem_map.mpr ⟨p, hp, h2⟩
    · obtain ⟨s, hs, hd⟩ := ih ht
      exact ⟨s, List.mem_cons_of_mem _ hs, hd⟩

theorem walkForLoop_post (b : List Nat)
    (w : List (Nat × Segment) → Nat → Except Err (List (Nat × Segment)))
    (hw : ∀ segs offset segs', w segs offset = .ok segs' →
      ∃ new, WalkPost b segs segs' new ∧ offset ∈ keysOf segs' ∧
        ∀ R : Nat → Prop,
          (∀ o s, decodeSegment b o = .ok s → R o → ∀ p ∈ s.prior, R p.1) →
          R offset → ∀ k ∈ keysOf new, R k) :
    ∀ (os : List Nat) (segs segs' : List (Nat × Segment)),
      walkForLoop w segs os = .ok segs' →
      ∃ new, WalkPost b segs segs' new ∧ (∀ o ∈ os, o ∈ keysOf segs') ∧
        ∀ R : Nat → Prop,
          (∀ o s, decodeSegment b o = .ok s → R o → ∀ p ∈ s.prior, R p.1) →
          (∀ o ∈ os, R o) → ∀ k ∈ keysOf new, R k := by
  intro os
  induction os with
  | nil =>
    intro segs segs' h
    unfold walkForLoop at h
    injection h with h
    subst h
    exact ⟨[], ⟨by simp, by simp [keysOf], by simp [keysOf], by simp, by simp⟩,
      by simp, by simp [keysOf]⟩
  | cons o os ih =>
    intro segs segs' h
    unfold walkForLoop at h
    split at h
    · exact Except.noConfusion h
    rename_i segs1 h1
    obtain ⟨new1, ⟨he1, hf1, hn1, hd1, hc1⟩, ho1, hR1⟩ := hw segs o segs1 h1
    obtain ⟨new2, ⟨he2, hf2, hn2, hd2, hc2⟩, ho2, hR2⟩ := ih segs1 segs' h
    refine ⟨new2 ++ new1, ⟨?_, ?_, ?_, ?_, ?_⟩, ?_, ?_⟩
    · rw [he2, he1, List.append_assoc]
    · intro k hk
      rw [keysOf_append] at hk
      rcases List.mem_append.mp hk with h2 | h1m
      · intro hks
        exact hf2 k h2 (by rw [he1, keysOf_append]; exact List.mem_append_right _ hks)
      · exact hf1 k h1m
    · rw [keysOf_append, List.nodup_append]
      refine ⟨hn2, hn1, ?_⟩
      intro k hk2 hk1
      exact hf2 k hk2 (by rw [he1, keysOf_append]; exact List.mem_append_left _ hk1)
    · intro e he
      rcases List.mem_append.mp he with h2 | h1m
      · exact hd2 e h2
      · exact hd1 e h1m
    · intro e he p hp
      rcases List.mem_append.mp he with h2 | h1m
      · exact hc2 e h2 p hp
      · have hmem := hc1 e h1m p hp
        rw [he2, keysOf_append]
        exact List.mem_append_right _ hmem
    · intro o' ho'
      rcases List.mem_cons.mp ho' with rfl | hmem
      · rw [he2, keysOf_append]
        exact List.mem_append_right _ ho1
      · exact ho2 o' hmem
    · intro R hstep hos k hk
      rw [keysOf_append] at hk
      rcases List.mem_append.mp hk with h2 | h1m
      · exact hR2 R hstep (fun o' ho' => hos o' (List.mem_cons_of_mem _ ho')) k h2
      · exact hR1 R hstep (hos o (List.mem_cons_self o os)) k h1m

theorem walk_segment_tree_post (b : List Nat) :
    ∀ (fuel : Nat) (segs : List (Nat × Segment)) (offset : Nat)
      (segs' : List (Nat × Segment)),
      walk_segment_tree b fuel segs offset = .ok segs' →
      ∃ new, WalkPost b segs segs' new ∧ offset ∈ keysOf segs' ∧
        ∀ R : Nat → Prop,
          (∀ o s, decodeSegment b o = .ok s → R o → ∀ p ∈ s.prior, R p.1) →
          R offset → ∀ k ∈ keysOf new, R k := by
  intro fuel
  induction fuel with
  | zero =>
    intro segs offset segs' h
    exact Except.noConfusion h
  | succ fuel ih =>
    intro segs offset segs' h
    unfold walk_segment_tree at h
    split at h
    · rename_i hfind
      injection h with h
      subst h
      refine ⟨[], ⟨by simp, by simp [keysOf], by simp [keysOf], by simp, by simp⟩,
        ?_, by simp [keysOf]⟩
      exact (findSeg_isSome_iff segs offset).mp hfind
    · rename_i hfind
      split at h
      · exact Except.noConfusion h
      rename_i seg hdec
      obtain ⟨new2, ⟨he2, hf2, hn2, hd2, hc2⟩, ho2, hR2⟩ :=
        walkForLoop_post b (walk_segment_tree b fuel) ih (seg.prior.map Prod.fst)
          ((offset, seg) :: segs) segs' h
      have hofresh : offset ∉ keysOf segs :=
        fun hk => hfind ((findSeg_isSome_iff segs offset).mpr hk)
      refine ⟨new2 ++ [(offset, seg)], ⟨?_, ?_, ?_, ?_, ?_⟩, ?_, ?_⟩
      · rw [he2]
        simp
      · intro k hk
        rw [keysOf_append] at hk
        rcases List.mem_append.mp hk with h2 | h1m
        · intro hks
          apply hf2 k h2
          rw [keysOf_cons]
          exact List.mem_cons_of_mem _ hks
        · have hko : k = offset := by simpa [keysOf] using h1m
          subst hko
          exact hofresh
      · rw [keysOf_append, List.nodup_append]
        refine ⟨hn2, by simp [keysOf], ?_⟩
        intro k hk2 hk1
        have hko : k = offset := by simpa [keysOf] using hk1
        subst hko
        exact hf2 k hk2 (by rw [keysOf_cons]; exact List.mem_cons_self _ _)
      · intro e he
        rcases List.mem_append.mp he with h2 | h1m
        · exact hd2 e h2
        · have heq : e = (offset, seg) := by simpa using h1m
          subst heq
          exact hdec
      · intro e he p hp
        rcases List.mem_append.mp he with h2 | h1m
        · exact hc2 e h2 p hp
        · have heq : e = (offset, seg) := by simpa using h1m
          subst heq
          exact ho2 p.1 (List.mem_map.mpr ⟨p, hp, rfl⟩)
      · rw [he2, keysOf_append, keysOf_cons]
        exact List.mem_append_right _ (List.mem_cons_self _ _)
      · intro R hstep hoff k hk
        rw [keysOf_append] at hk
        rcases List.mem_append.mp hk with h2 | h1m
        · refine hR2 R hstep ?_ k h2
          intro o' ho'
          obtain ⟨p, hp, rfl⟩ := List.mem_map.mp ho'
          exact hstep offset seg hdec hoff p hp
        · have hko : k = offset := by simpa [keysOf] using h1m
          subst hko
          exact hoff

/-- C4: when the driver completes, the walk started from the header's
head offset produced a segment map whose keys are exactly the offsets
transitively reachable through `prior` references — each present exactly
once — and the exported graph has one node line per mapped segment and
exactly one edge per entry of each segment's `prior` list (every edge
comes from a `prior` entry, none from `parents`). -/
theorem walk_and_export_spec (b : List Nat) (fuel : Nat) (h : Header)
    (hs : Segment) (segs : List (Nat × Segment)) (gr : List DotLine)
    (hrun : runDump b fuel = .ok (h, hs, segs, gr)) :
    ∃ hd : Nat × Nat, h.head = some hd ∧
      (keysOf segs).Nodup ∧
      (∀ k, ReachPrior b hd.1 k → k ∈ keysOf segs) ∧
      (∀ k ∈ keysOf segs, ReachPrior b hd.1 k) ∧
      gr = exportGraph segs ∧
      nodeOffsets gr = keysOf segs ∧
      (∀ k s, (k, s) ∈ segs → edgesOf gr k = s.prior.map Prod.fst) ∧
      (∀ src dst, DotLine.edge src dst ∈ gr →
        ∃ s, (src, s) ∈ segs ∧ dst ∈ s.prior.map Prod.fst) := by
  unfold runDump at hrun
  split at hrun
  · exact Except.noConfusion hrun
  rename_i h0 hhdr
  split at hrun
  · exact Except.noConfusion hrun
  rename_i hd0 hhead
  split at hrun
  · exact Except.noConfusion hrun
  rename_i hs0 hheadseg
  split at hrun
  · exact Except.noConfusion hrun
  rename_i segs0 hwalk
  injection hrun with hrun
  injection hrun with hh hrun
  injection hrun with hhs hrun
  injection hrun with hsegs hgr
  subst hh
  subst hhs
  subst hsegs
  subst hgr
  obtain ⟨new, ⟨hnew, -, hnd, hdec, hclosed⟩, hmem, hR⟩ :=
    walk_segment_tree_post b fuel [] hd0.1 segs0 hwalk
  rw [List.append_nil] at hnew
  subst hnew
  refine ⟨hd0, hhead, hnd, ?_, ?_, rfl, nodeOffsets_exportGraph _,
    edgesOf_exportGraph _ hnd, edge_mem_exportGraph _⟩
  · intro k hreach
    induction hreach with
    | refl => exact hmem
    | step hro hde hp ihr =>
      rename_i o seg p
      obtain ⟨e, he, he1⟩ := List.mem_map.mp ihr
      have hde2 := hdec e he
      rw [he1, hde] at hde2
      injection hde2 with hde2
      exact hclosed e he p (by rw [← hde2]; exact hp)
  · intro k hk
    refine hR (ReachPrior b hd0.1)
      (fun o s hds hro p hp => ReachPrior.step hro hds hp) ReachPrior.refl k hk

/-- Witness for C4 on the two-part dump `demoBuf` (one init segment at
offset 0, reached from the header's head). -/
theorem walk_and_export_spec_witness :
    runDump demoBuf 2 = .ok (demoHdr, demoSeg, demoSegs, [DotLine.node 0]) ∧
    (keysOf demoSegs).Nodup ∧
    edgesOf [DotLine.node 0] 0 = demoSeg.prior.map Prod.fst := by
  have hrun := demoRun_eq
  obtain ⟨hd, -, hnd, -, -, -, -, hedges, -⟩ :=
    walk_and_export_spec demoBuf 2 _ _ _ _ hrun
  exact ⟨hrun, hnd, hedges 0 demoSeg (by simp [demoSegs])⟩

end StorageDump
